import Mathlib

/-!
Shallow embedding of the task-bench core (src/core/core.cc) and proofs about
its graph model, validation and reporting layers.

Conventions of the embedding:
* C++ `long` values are modelled as `Int`; C++ `size_t` quantities that only
  ever hold small nonnegative values are modelled as `Nat` where noted.
* C++ integer division and remainder on `long` truncate toward zero, so they
  are modelled by `Int.tdiv` and `Int.tmod`.
* `1L << k` (used by the tree and fft patterns with `0 ≤ k ≤ 62`) is modelled
  as `2 ^ k` on `Int`, which agrees with the C++ shift on that range.
* `(long)ceil(log2(max_width))` (fft's dependence-set count) is modelled as
  `Nat.clog 2`, the ceiling base-2 logarithm, which agrees with the C++
  expression for the `long` widths the benchmark accepts.
-/

namespace TaskBench

/-- The dependence patterns of `DependenceType` (core.cc / core_c.h). -/
inductive DependenceType where
  | TRIVIAL
  | NO_COMM
  | STENCIL_1D
  | STENCIL_1D_PERIODIC
  | DOM
  | TREE
  | FFT
  | ALL_TO_ALL
  | NEAREST
  | SPREAD
  | RANDOM_NEAREST
  | RANDOM_SPREAD
  deriving DecidableEq, Repr

/-- The fields of `struct TaskGraph` (core.h / core.cc) that the graph model,
validation and reporting code reads.  `fraction_connected` (a C++ `double`)
and `graph_index` only ever occur in the combination
`random_uniform({graph_index, radix, dset, a, b}) < fraction_connected`
(core.cc lines 375-377 and 516-518).

Modelled from the spec: `random_uniform` (core_random.h, which is not under
src/) is, per the spec's C1 contract, a pure deterministic function of the
5-tuple of signed 64-bit integers, identical across calls.  For a fixed
graph the first two tuple components are the constants `graph_index` and
`radix`, so the whole comparison is abstracted here as the per-graph Boolean
field `hashInclude dset a b`. -/
structure TaskGraph where
  timesteps : Int
  max_width : Int
  dependence : DependenceType
  radix : Int
  period : Int
  output_bytes_per_task : Nat
  output_case : Nat
  hashInclude : Int → Int → Int → Bool

/-- `TaskGraph::offset_at_timestep` (core.cc lines 171-196). -/
def TaskGraph.offset_at_timestep (g : TaskGraph) (timestep : Int) : Int :=
  if timestep < 0 then 0
  else
    match g.dependence with
    | .TRIVIAL | .NO_COMM | .STENCIL_1D | .STENCIL_1D_PERIODIC => 0
    | .DOM => max 0 (timestep + g.max_width - g.timesteps)
    | .TREE | .FFT | .ALL_TO_ALL | .NEAREST | .SPREAD
    | .RANDOM_NEAREST | .RANDOM_SPREAD => 0

/-- `TaskGraph::width_at_timestep` (core.cc lines 198-225). -/
def TaskGraph.width_at_timestep (g : TaskGraph) (timestep : Int) : Int :=
  if timestep < 0 then 0
  else
    match g.dependence with
    | .TRIVIAL | .NO_COMM | .STENCIL_1D | .STENCIL_1D_PERIODIC => g.max_width
    | .DOM => min g.max_width (min (timestep + 1) (g.timesteps - timestep))
    | .TREE => min g.max_width (2 ^ (min timestep 62).toNat)
    | .FFT | .ALL_TO_ALL | .NEAREST | .SPREAD
    | .RANDOM_NEAREST | .RANDOM_SPREAD => g.max_width

/-- `TaskGraph::max_dependence_sets` (core.cc lines 228-250). -/
def TaskGraph.max_dependence_sets (g : TaskGraph) : Int :=
  match g.dependence with
  | .TRIVIAL | .NO_COMM | .STENCIL_1D | .STENCIL_1D_PERIODIC
  | .DOM | .TREE => 1
  | .FFT => (Nat.clog 2 g.max_width.toNat : Int)
  | .ALL_TO_ALL | .NEAREST => 1
  | .SPREAD | .RANDOM_NEAREST | .RANDOM_SPREAD => g.period

/-- `TaskGraph::dependence_set_at_timestep` (core.cc lines 259-281). -/
def TaskGraph.dependence_set_at_timestep (g : TaskGraph) (timestep : Int) : Int :=
  match g.dependence with
  | .TRIVIAL | .NO_COMM | .STENCIL_1D | .STENCIL_1D_PERIODIC
  | .DOM | .TREE => 0
  | .FFT => (timestep + g.max_dependence_sets - 1).tmod g.max_dependence_sets
  | .ALL_TO_ALL | .NEAREST => 0
  | .SPREAD | .RANDOM_NEAREST | .RANDOM_SPREAD =>
      timestep.tmod g.max_dependence_sets

/-- The run-coalescing sweep of the `RANDOM_NEAREST` cases of
`TaskGraph::dependencies` (core.cc lines 507-535) and
`TaskGraph::reverse_dependencies` (lines 366-394): visit candidate indices
`i, i+1, …` (the C++ loop runs while `i <= last_i`; here `fuel` counts the
remaining indices, so the initial call passes `fuel = (last_i + 1 - i).toNat`),
include `i` when `inc i`, and emit one inclusive interval per maximal run of
included indices.  `run_start = none` models the C++ sentinel
`run_start = -1`. -/
def rnSweep (inc : Int → Bool) : Option Int → Int → Nat → List (Int × Int)
  | run_start, i, 0 =>
      match run_start with
      | some s => [(s, i - 1)]
      | none => []
  | run_start, i, fuel + 1 =>
      if inc i then
        rnSweep inc (some (run_start.getD i)) (i + 1) fuel
      else
        (match run_start with
         | some s => [(s, i - 1)]
         | none => []) ++ rnSweep inc none (i + 1) fuel

/-- `TaskGraph::dependencies(long dset, long point, std::pair<long,long> *deps)`
(core.cc lines 442-542), returning the list of inclusive intervals the C++
function writes into `deps`.  The `RANDOM_SPREAD` arm of the C++ switch is the
`default: assert(false)` branch (unreachable: random_spread graphs never pass
`App::check`); it is modelled as the empty list, and every theorem that relies
on `dependencies` carries the hypothesis `g.dependence ≠ RANDOM_SPREAD`. -/
def TaskGraph.dependencies (g : TaskGraph) (dset point : Int) : List (Int × Int) :=
  match g.dependence with
  | .TRIVIAL => []
  | .NO_COMM => [(point, point)]
  | .STENCIL_1D => [(max 0 (point - 1), min (point + 1) (g.max_width - 1))]
  | .STENCIL_1D_PERIODIC =>
      [(max 0 (point - 1), min (point + 1) (g.max_width - 1))]
        ++ (if point - 1 < 0 then [(g.max_width - 1, g.max_width - 1)] else [])
        ++ (if point + 1 ≥ g.max_width then [(0, 0)] else [])
  | .DOM => [(max 0 (point - 1), point)]
  | .TREE => [(point.tdiv 2, point.tdiv 2)]
  | .FFT =>
      (if point - 2 ^ dset.toNat ≥ 0 then
        [(point - 2 ^ dset.toNat, point - 2 ^ dset.toNat)] else [])
        ++ [(point, point)]
        ++ (if point + 2 ^ dset.toNat < g.max_width then
             [(point + 2 ^ dset.toNat, point + 2 ^ dset.toNat)] else [])
  | .ALL_TO_ALL => [(0, g.max_width - 1)]
  | .NEAREST =>
      if g.radix > 0 then
        [(max 0 (point - g.radix.tdiv 2),
          min (point + (g.radix - 1).tdiv 2) (g.max_width - 1))]
      else []
  | .SPREAD =>
      (List.range g.radix.toNat).map (fun (i : Nat) =>
        let dep := (point + ((i : Int) * g.max_width).tdiv g.radix
            + (if (i : Int) > 0 then dset else 0)).tmod g.max_width
        (dep, dep))
  | .RANDOM_NEAREST =>
      let first := max 0 (point - g.radix.tdiv 2)
      let last_i := min (point + (g.radix - 1).tdiv 2) (g.max_width - 1)
      rnSweep (fun i => g.hashInclude dset i point || (g.radix > 0 && i == point))
        none first (last_i + 1 - first).toNat
  | .RANDOM_SPREAD => []

/-- `TaskGraph::num_dependencies` (core.cc lines 544-571), the interval count
used to size the caller's buffer.  The `RANDOM_SPREAD` arm again models the
unreachable `default: assert(false)` branch (as 0). -/
def TaskGraph.num_dependencies (g : TaskGraph) (_dset _point : Int) : Int :=
  match g.dependence with
  | .TRIVIAL => 0
  | .NO_COMM | .STENCIL_1D => 1
  | .STENCIL_1D_PERIODIC => if g.max_width > 1 then 2 else 3
  | .DOM | .TREE => 1
  | .FFT => 3
  | .ALL_TO_ALL => 1
  | .NEAREST => if g.radix > 0 then 1 else 0
  | .SPREAD | .RANDOM_NEAREST => g.radix
  | .RANDOM_SPREAD => 0

/-- `TaskGraph::reverse_dependencies(long dset, long point, …)` (core.cc lines
293-401), as the list of intervals written.  Note the `RANDOM_NEAREST` arm
swaps the last two hash-tuple components relative to the forward direction
(`{graph_index, radix, dset, point, i}`, line 375, versus
`{graph_index, radix, dset, i, point}`, line 516), and the `SPREAD` arm
subtracts the stride and fixes up a negative remainder (lines 360-364). -/
def TaskGraph.reverse_dependencies (g : TaskGraph) (dset point : Int) : List (Int × Int) :=
  match g.dependence with
  | .TRIVIAL => []
  | .NO_COMM => [(point, point)]
  | .STENCIL_1D => [(max 0 (point - 1), min (point + 1) (g.max_width - 1))]
  | .STENCIL_1D_PERIODIC =>
      [(max 0 (point - 1), min (point + 1) (g.max_width - 1))]
        ++ (if point - 1 < 0 then [(g.max_width - 1, g.max_width - 1)] else [])
        ++ (if point + 1 ≥ g.max_width then [(0, 0)] else [])
  | .DOM => [(point, min (g.max_width - 1) (point + 1))]
  | .TREE =>
      if point * 2 < g.max_width ∧ point * 2 + 1 < g.max_width then
        [(point * 2, point * 2 + 1)]
      else if point * 2 < g.max_width then
        [(point * 2, point * 2)]
      else []
  | .FFT =>
      (if point - 2 ^ dset.toNat ≥ 0 then
        [(point - 2 ^ dset.toNat, point - 2 ^ dset.toNat)] else [])
        ++ [(point, point)]
        ++ (if point + 2 ^ dset.toNat < g.max_width then
             [(point + 2 ^ dset.toNat, point + 2 ^ dset.toNat)] else [])
  | .ALL_TO_ALL => [(0, g.max_width - 1)]
  | .NEAREST =>
      if g.radix > 0 then
        [(max 0 (point - (g.radix - 1).tdiv 2),
          min (point + g.radix.tdiv 2) (g.max_width - 1))]
      else []
  | .SPREAD =>
      (List.range g.radix.toNat).map (fun (i : Nat) =>
        let dep0 := (point - ((i : Int) * g.max_width).tdiv g.radix
            - (if (i : Int) > 0 then dset else 0)).tmod g.max_width
        let dep := if dep0 < 0 then dep0 + g.max_width else dep0
        (dep, dep))
  | .RANDOM_NEAREST =>
      let first := max 0 (point - (g.radix - 1).tdiv 2)
      let last_i := min (point + g.radix.tdiv 2) (g.max_width - 1)
      rnSweep (fun i => g.hashInclude dset point i || (g.radix > 0 && i == point))
        none first (last_i + 1 - first).toNat
  | .RANDOM_SPREAD => []

/-- `TaskGraph::num_reverse_dependencies` (core.cc lines 403-430), with the
unreachable `RANDOM_SPREAD` default again modelled as 0. -/
def TaskGraph.num_reverse_dependencies (g : TaskGraph) (_dset _point : Int) : Int :=
  match g.dependence with
  | .TRIVIAL => 0
  | .NO_COMM | .STENCIL_1D => 1
  | .STENCIL_1D_PERIODIC => if g.max_width > 1 then 2 else 3
  | .DOM | .TREE => 1
  | .FFT => 3
  | .ALL_TO_ALL => 1
  | .NEAREST => if g.radix > 0 then 1 else 0
  | .SPREAD | .RANDOM_NEAREST => g.radix
  | .RANDOM_SPREAD => 0

/-- `q` lies in some inclusive interval of `l`.  This is the notion of
membership the callers of `dependencies`/`reverse_dependencies` use: both
`App::check` (core.cc lines 1184-1199) and the backends materialize every
`dp` with `dep.first <= dp <= dep.second`. -/
def coveredBy (l : List (Int × Int)) (q : Int) : Bool :=
  l.any (fun pr => decide (pr.1 ≤ q ∧ q ≤ pr.2))

/-- `needs_period` (core.cc lines 39-41).  Note the C++ predicate covers only
`SPREAD` and `RANDOM_NEAREST`; `RANDOM_SPREAD` is absent. -/
def needs_period (dtype : DependenceType) : Bool :=
  dtype == .SPREAD || dtype == .RANDOM_NEAREST

/-- The period validation of `App::check` (core.cc lines 1152-1168): `true`
iff none of its three `abort()` branches fires for graph `g` (missing
required period, period given to a pattern that takes none, or a spread
period exceeding `(max_width + radix - 1) / radix`). -/
def periodCheckOk (g : TaskGraph) : Bool :=
  !(needs_period g.dependence && g.period == 0)
    && !(!needs_period g.dependence && g.period != 0)
    && !(g.dependence == .SPREAD
          && g.period > (g.max_width + g.radix - 1).tdiv g.radix)

/-- The deterministic branches of `allocate_bytes` (core.cc lines 1394-1472)
as a `timesteps × max_width` table of cells; `none` models a cell of the
C++ `new size_t[max_width]` row that the planner never writes (the C++ cell
then holds indeterminate memory).  When `output_bytes_per_task == 16` the
first branch writes 16 into the cells `[offset_t, offset_t + width_t)` of
each row; otherwise when `output_case == 0` the uniform case writes
`output_bytes_per_task` there.  The remaining branches (`output_case` 1-3)
draw from `std::default_random_engine` distributions and are not modelled:
the whole table is `none` for them. -/
def allocate_bytes? (g : TaskGraph) : Option (List (List (Option Nat))) :=
  if g.output_bytes_per_task = 16 ∨ g.output_case = 0 then
    some ((List.range g.timesteps.toNat).map (fun (t : Nat) =>
      let offset_t := g.offset_at_timestep (t : Int)
      let width_t := g.width_at_timestep (t : Int)
      (List.range g.max_width.toNat).map (fun (i : Nat) =>
        if offset_t ≤ (i : Int) ∧ (i : Int) < offset_t + width_t then
          some g.output_bytes_per_task
        else none)))
  else none

/-- The graph-list assembly of `App::App`: every `-and` flag pushes the graph
configured so far onto `graphs` and starts a fresh default graph (core.cc
lines 1039-1046) — without allocating its `output_bytes_size` table; only
after the parse loop does the constructor allocate the table and run
`allocate_bytes`, for the one graph still in hand, before pushing it (lines
1113-1128).  `andGraphs` are the graphs pushed by `-and`, `finalGraph` the
last one; the result pairs each graph of `App::graphs` with its
output-size table, `none` meaning the table was never allocated. -/
def appOutputTables (andGraphs : List TaskGraph) (finalGraph : TaskGraph) :
    List (TaskGraph × Option (List (List (Option Nat)))) :=
  (andGraphs.map (fun g => (g, none))) ++ [(finalGraph, allocate_bytes? finalGraph)]

/-- The integer points of the inclusive interval `[a, b]`. -/
def intervalPoints (a b : Int) : List Int :=
  (List.range (b + 1 - a).toNat).map (fun (k : Nat) => a + (k : Int))

/-- The dependencies `TaskGraph::execute_point` requires inputs for at
`(timestep, point)` (core.cc lines 598-635): the points of
`dependencies(dset(timestep), point)`, in interval order, that fall in
`[last_offset, last_offset + last_width)` of timestep `timestep - 1`. -/
def TaskGraph.validationDeps (g : TaskGraph) (timestep point : Int) : List Int :=
  let last_offset := g.offset_at_timestep (timestep - 1)
  let last_width := g.width_at_timestep (timestep - 1)
  let dset := g.dependence_set_at_timestep timestep
  ((g.dependencies dset point).flatMap (fun pr => intervalPoints pr.1 pr.2)).filter
    (fun dep => decide (last_offset ≤ dep ∧ dep < last_offset + last_width))

/-- The input validation of `TaskGraph::execute_point` (core.cc lines
598-639): `true` iff every assert of the validation loop holds and the
corrupted-value error branch (lines 619-624) is unreachable.  An input
buffer is modelled as its list of 16-byte `(long, long)` records, so
`input_bytes[idx] >= sizeof(std::pair<long,long>)` becomes `buf ≠ []` and
the record loop over `input_bytes[idx]/16` slots becomes `buf.all`.  The
`idx < n_inputs` asserts hold iff the required dependencies do not outrun
the input list. -/
def TaskGraph.validateInputs (g : TaskGraph) (timestep point : Int)
    (inputs : List (List (Int × Int))) : Bool :=
  let deps := g.validationDeps timestep point
  decide (deps.length ≤ inputs.length)
    && (deps.zip inputs).all (fun di =>
        !di.2.isEmpty
          && di.2.all (fun r => decide (r.1 = timestep - 1 ∧ r.2 = di.1)))

/-- The output generation of `TaskGraph::execute_point` (core.cc lines
648-653): every 16-byte slot of the output buffer receives the record
`(timestep, point)`; `slots = output_bytes / 16`. -/
def executePointOutput (timestep point : Int) (slots : Nat) : List (Int × Int) :=
  List.replicate slots (timestep, point)

/-- `clamp` (core.cc lines 1384-1392). -/
def clamp (start stop min_value max_value : Int) : Int × Int :=
  if stop < min_value then (min_value, min_value - 1)
  else if start > max_value then (max_value, max_value - 1)
  else (max start min_value, min stop max_value)

/-- The per-graph accumulators of `App::report_timing` (core.cc lines
1485-1528, `nodes`-independent part), as the pair
`(num_tasks, num_deps)`: per timestep `t` the loop adds `width(t)` to
`num_tasks` (line 1501), and for every point `p` of the row and every
dependency interval adds `dep_last - dep_first + 1` of the interval clamped
to `[last_offset, last_offset + last_width - 1]` to `num_deps` (lines
1513-1517). -/
def graphReportCounts (g : TaskGraph) : Int × Int :=
  ((List.range g.timesteps.toNat).map (fun (tn : Nat) =>
    let t := (tn : Int)
    let offset := g.offset_at_timestep t
    let width := g.width_at_timestep t
    let last_offset := g.offset_at_timestep (t - 1)
    let last_width := g.width_at_timestep (t - 1)
    let dset := g.dependence_set_at_timestep t
    (width,
      ((intervalPoints offset (offset + width - 1)).map (fun p =>
        ((g.dependencies dset p).map (fun dep =>
          let c := clamp dep.1 dep.2 last_offset (last_offset + last_width - 1)
          c.2 - c.1 + 1)).sum)).sum))).foldl
    (fun acc x => (acc.1 + x.1, acc.2 + x.2)) (0, 0)

/-- Claim C8's reading of the dependency total: for every `(t, p)` and every
dependency interval, count the points covered by the interval after clamping
to `[last_offset, last_offset + last_width - 1]`, an interval entirely
outside the clamp range contributing 0. -/
def graphNumDepsSpec (g : TaskGraph) : Int :=
  ((List.range g.timesteps.toNat).map (fun (tn : Nat) =>
    let t := (tn : Int)
    let offset := g.offset_at_timestep t
    let width := g.width_at_timestep t
    let last_offset := g.offset_at_timestep (t - 1)
    let last_width := g.width_at_timestep (t - 1)
    let dset := g.dependence_set_at_timestep t
    ((intervalPoints offset (offset + width - 1)).map (fun p =>
      ((g.dependencies dset p).map (fun dep =>
        max 0 (min dep.2 (last_offset + last_width - 1) - max dep.1 last_offset + 1))).sum)).sum)).sum

/-- Claim C8's reading of the task total for one graph: the sum of
`width_at_timestep(t)` over `t ∈ [0, timesteps)`. -/
def graphNumTasksSpec (g : TaskGraph) : Int :=
  ((List.range g.timesteps.toNat).map
    (fun (t : Nat) => g.width_at_timestep (t : Int))).sum

/-- `total_num_tasks` of `App::report_timing` (core.cc lines 1476, 1531):
the per-graph `num_tasks` accumulators summed over `App::graphs`. -/
def appTotalTasks (graphs : List TaskGraph) : Int :=
  (graphs.map (fun g => (graphReportCounts g).1)).sum

/-- `total_num_deps` of `App::report_timing` (core.cc lines 1477, 1532). -/
def appTotalDeps (graphs : List TaskGraph) : Int :=
  (graphs.map (fun g => (graphReportCounts g).2)).sum

/-- Claim C8's task total over all graphs. -/
def appTotalTasksSpec (graphs : List TaskGraph) : Int :=
  (graphs.map graphNumTasksSpec).sum

/-- Claim C8's dependency total over all graphs. -/
def appTotalDepsSpec (graphs : List TaskGraph) : Int :=
  (graphs.map graphNumDepsSpec).sum

/-- The spread dependency list exactly as claim C5 words it: `R` singletons
`(p + i·⌊W/R⌋ + (i>0 ? dset : 0)) mod W`, the floor applied to `W/R`
BEFORE the multiplication by `i` (mathematical floor division and
nonnegative remainder). -/
def spreadDepsClaim (g : TaskGraph) (dset point : Int) : List (Int × Int) :=
  (List.range g.radix.toNat).map (fun (i : Nat) =>
    let dep := (point + (i : Int) * (g.max_width / g.radix)
        + (if (i : Int) > 0 then dset else 0)) % g.max_width
    (dep, dep))

/-- The amended spread dependency formula: `R` singletons
`(p + ⌊i·W/R⌋ + (i>0 ? dset : 0)) mod W`, the floor applied to the whole
product `i·W/R` (mathematical floor division and nonnegative remainder),
matching the C++ left-to-right evaluation of `i*max_width/radix`. -/
def spreadDepsAmended (g : TaskGraph) (dset point : Int) : List (Int × Int) :=
  (List.range g.radix.toNat).map (fun (i : Nat) =>
    let dep := (point + ((i : Int) * g.max_width) / g.radix
        + (if (i : Int) > 0 then dset else 0)) % g.max_width
    (dep, dep))

/-- A stencil_1d graph, `-steps 4 -width 4 -type stencil_1d` with the
defaults of `default_graph` (core.cc lines 676-699). -/
def stencilG : TaskGraph :=
  ⟨4, 4, .STENCIL_1D, 3, 0, 16, 0, fun _ _ _ => false⟩

/-- A dom graph, `-steps 4 -width 6 -type dom` (claim C4's configuration). -/
def domG : TaskGraph :=
  ⟨4, 6, .DOM, 3, 0, 16, 0, fun _ _ _ => false⟩

/-- A tree graph, `-steps 4 -width 4 -type tree`. -/
def treeG : TaskGraph :=
  ⟨4, 4, .TREE, 3, 0, 16, 0, fun _ _ _ => false⟩

/-- An fft graph of width 1, `-steps 4 -width 1 -type fft` (period 0 as the
pattern requires none). -/
def fftW1 : TaskGraph :=
  ⟨4, 1, .FFT, 3, 0, 16, 0, fun _ _ _ => false⟩

/-- A spread graph, `-steps 4 -width 8 -type spread -radix 3 -period 2`
(the spec's scenario 5 configuration). -/
def spreadG : TaskGraph :=
  ⟨4, 8, .SPREAD, 3, 2, 16, 0, fun _ _ _ => false⟩

/-- A random_nearest graph of radix 5 and width 8 whose hash decisions are a
concrete deterministic sample (some draws below `fraction_connected`,
some not). -/
def rnG : TaskGraph :=
  ⟨4, 8, .RANDOM_NEAREST, 5, 1, 16, 0, fun d a b => (a + b + d).tmod 3 == 0⟩

/-- A random_nearest graph with `radix = 0` and `fraction_connected = 1.0`:
every hash draw lies below the fraction (`random_uniform` yields values in
`[0, 1)`), so `hashInclude` is constantly `true`. -/
def rn0G : TaskGraph :=
  ⟨2, 4, .RANDOM_NEAREST, 0, 1, 16, 0, fun _ _ _ => true⟩

/-- A random_spread graph with the non-zero period the spec requires for the
pattern. -/
def rsG5 : TaskGraph :=
  ⟨4, 8, .RANDOM_SPREAD, 3, 5, 16, 0, fun _ _ _ => false⟩

/-- A random_spread graph with period 0. -/
def rsG0 : TaskGraph :=
  ⟨4, 8, .RANDOM_SPREAD, 3, 0, 16, 0, fun _ _ _ => false⟩

/-- A second stencil graph (`-steps 2 -width 3`), used as the graph a
multi-graph command line pushes at its `-and` flag. -/
def stencilG2 : TaskGraph :=
  ⟨2, 3, .STENCIL_1D, 3, 0, 16, 0, fun _ _ _ => false⟩

/-! ## Helper lemmas -/

/-- Truncating remainder of a nonnegative dividend by a positive divisor is
the Euclidean remainder and lies in `[0, m)`. -/
theorem tmod_bounds {a m : Int} (ha : 0 ≤ a) (hm : 1 ≤ m) :
    0 ≤ a.tmod m ∧ a.tmod m < m := by
  rw [Int.tmod_eq_emod ha (by omega)]
  exact ⟨Int.emod_nonneg a (by omega), Int.emod_lt_of_pos a (by omega)⟩

/-- The truncating remainder by a positive divisor exceeds `-W`. -/
theorem tmod_gt_neg {x W : Int} (hW : 0 < W) : -W < x.tmod W := by
  rcases x with m | m
  · have h0 : (0 : Int) ≤ Int.ofNat m := Int.ofNat_nonneg m
    have := Int.tmod_nonneg W h0
    omega
  · rcases W with n | n
    · have hdef : (Int.negSucc m).tmod (Int.ofNat n) = -(Int.ofNat ((m + 1) % n)) := rfl
      rw [hdef, Int.ofNat_eq_natCast, Int.ofNat_eq_natCast] at *
      have hn : 0 < n := by exact_mod_cast hW
      have hlt : (m + 1) % n < n := Nat.mod_lt _ hn
      omega
    · exact absurd hW (by exact Int.not_lt.mpr (Int.negSucc_lt_zero n).le)

/-- The C++ idiom `t = x % W; if (t < 0) t += W;` computes the Euclidean
remainder when `W > 0` (as in the `SPREAD` arm of
`TaskGraph::reverse_dependencies`, core.cc lines 361-362). -/
theorem tmod_fixup_eq_emod (x W : Int) (hW : 0 < W) :
    (if x.tmod W < 0 then x.tmod W + W else x.tmod W) = x % W := by
  have h1 : x % W = x.tmod W % W := by
    conv_lhs => rw [← Int.tmod_add_tdiv x W]
    rw [Int.add_mul_emod_self_left]
  have hub : x.tmod W < W := Int.tmod_lt_of_pos x hW
  have hlb : -W < x.tmod W := tmod_gt_neg hW
  split
  · have h2 : x.tmod W % W = (x.tmod W + W * 1) % W :=
      (Int.add_mul_emod_self_left (x.tmod W) W 1).symm
    rw [h1, h2, mul_one, Int.emod_eq_of_lt (by omega) (by omega)]
  · rw [h1, Int.emod_eq_of_lt (by omega) (by omega)]

/-- Moving an additive shift across a Euclidean remainder equation, for
representatives inside `[0, W)`. -/
theorem emod_shift_symm {W p q F : Int} (hp0 : 0 ≤ p) (hpW : p < W)
    (hq0 : 0 ≤ q) (hqW : q < W) :
    (p + F) % W = q ↔ (q - F) % W = p := by
  have hpp : p % W = p := Int.emod_eq_of_lt hp0 hpW
  have hqq : q % W = q := Int.emod_eq_of_lt hq0 hqW
  constructor
  · intro h
    have m1 : Int.ModEq W (p + F) q := by
      show (p + F) % W = q % W
      rw [h, hqq]
    have m2 : Int.ModEq W (p + F - F) (q - F) := m1.sub_right F
    have m3 : Int.ModEq W p (q - F) := by
      rwa [add_sub_cancel_right] at m2
    have : p % W = (q - F) % W := m3
    rw [← this, hpp]
  · intro h
    have m1 : Int.ModEq W (q - F) p := by
      show (q - F) % W = p % W
      rw [h, hpp]
    have m2 : Int.ModEq W (q - F + F) (p + F) := m1.add_right F
    have m3 : Int.ModEq W q (p + F) := by
      rwa [sub_add_cancel] at m2
    have : q % W = (p + F) % W := m3
    rw [← this, hqq]

/-- Membership in `intervalPoints`. -/
theorem mem_intervalPoints {a b x : Int} : x ∈ intervalPoints a b ↔ a ≤ x ∧ x ≤ b := by
  unfold intervalPoints
  simp only [List.mem_map, List.mem_range]
  constructor
  · rintro ⟨k, hk, rfl⟩
    omega
  · intro h
    exact ⟨(x - a).toNat, by omega, by omega⟩

/-- Zipping a list with its own image and checking a predicate is checking
the fused predicate. -/
theorem zip_map_self_all {α β : Type} (l : List α) (f : α → β) (P : α × β → Bool) :
    (l.zip (l.map f)).all P = l.all (fun a => P (a, f a)) := by
  induction l with
  | nil => rfl
  | cons a l ih => simp [ih]

/-- A pairwise-adding fold over pairs computes the two component sums. -/
theorem foldl_pair_sum (l : List (Int × Int)) (a b : Int) :
    l.foldl (fun acc x => (acc.1 + x.1, acc.2 + x.2)) (a, b) =
      (a + (l.map Prod.fst).sum, b + (l.map Prod.snd).sum) := by
  induction l generalizing a b with
  | nil => simp
  | cons x l ih => simp [ih]; constructor <;> ring

/-! ## Claim C4 (dom offset/width at the spec's scenario 4) -/

/-- C4 fails on the code: for dom with `timesteps = 4` and `max_width = 6`,
`offset_at_timestep(3)` is not 1 and `width_at_timestep(3)` is not 3. -/
theorem dom_claimed_offset_width_false :
    ¬ (domG.offset_at_timestep 3 = 1 ∧ domG.width_at_timestep 3 = 3) := by
  decide

/-- C4 (amended): for a dom graph with `timesteps = 4` and `max_width = 6`,
`offset_at_timestep(3) = max(0, 3 + 6 - 4) = 5` and
`width_at_timestep(3) = min(6, min(4, 1)) = 1`. -/
theorem dom_offset_width_at_3 (g : TaskGraph) (hd : g.dependence = .DOM)
    (ht : g.timesteps = 4) (hw : g.max_width = 6) :
    g.offset_at_timestep 3 = 5 ∧ g.width_at_timestep 3 = 1 := by
  unfold TaskGraph.offset_at_timestep TaskGraph.width_at_timestep
  rw [hd, ht, hw]
  decide

/-- Witness for `dom_offset_width_at_3` at the concrete graph `domG`. -/
theorem dom_offset_width_at_3_witness :
    domG.offset_at_timestep 3 = 5 ∧ domG.width_at_timestep 3 = 1 :=
  dom_offset_width_at_3 domG rfl rfl rfl

/-! ## Claim C3 (tree rows are claimed full-width) -/

/-- C3 fails on the code: a tree graph of width 4 does not have
`width_at_timestep(t) = max_width` at every timestep — at `t = 0` the width
is `min(4, 1 << 0) = 1`. -/
theorem tree_full_width_claim_false :
    ¬ (∀ t : Int, 0 ≤ t → t < treeG.timesteps →
        treeG.offset_at_timestep t = 0 ∧
          treeG.width_at_timestep t = treeG.max_width) := by
  intro h
  have h0 := (h 0 (by decide) (by decide)).2
  revert h0
  decide

/-- C3 (amended): for a tree graph, every timestep `t ∈ [0, timesteps)` has
`offset_at_timestep(t) = 0`, and `width_at_timestep(t)` is
`min(max_width, 1 << min(t, 62))` — which equals `max_width` exactly once
the doubling has reached the full width. -/
theorem tree_offset_width (g : TaskGraph) (hd : g.dependence = .TREE)
    (t : Int) (ht0 : 0 ≤ t) (ht1 : t < g.timesteps) :
    g.offset_at_timestep t = 0 ∧
      g.width_at_timestep t = min g.max_width (2 ^ (min t 62).toNat) ∧
      (g.max_width ≤ 2 ^ (min t 62).toNat →
        g.width_at_timestep t = g.max_width) := by
  unfold TaskGraph.offset_at_timestep TaskGraph.width_at_timestep
  rw [hd, if_neg (by omega), if_neg (by omega)]
  refine ⟨rfl, rfl, fun h => ?_⟩
  show min g.max_width (2 ^ (min t 62).toNat) = g.max_width
  omega

/-- Witness for `tree_offset_width` at `treeG`, `t = 2`. -/
theorem tree_offset_width_witness :
    treeG.offset_at_timestep 2 = 0 ∧
      treeG.width_at_timestep 2 = min treeG.max_width (2 ^ (min (2 : Int) 62).toNat) ∧
      (treeG.max_width ≤ 2 ^ (min (2 : Int) 62).toNat →
        treeG.width_at_timestep 2 = treeG.max_width) :=
  tree_offset_width treeG rfl 2 (by decide) (by decide)

/-! ## Claim C6 (dependence sets stay in range; maxDS ≥ 1) -/

/-- C6 fails on the code for fft with `max_width = 1`:
`max_dependence_sets() = (long)ceil(log2(1)) = 0`, not `≥ 1`, so the modulus
in `dependence_set_at_timestep` divides by zero there. -/
theorem fft_width1_maxds_not_pos : ¬ (1 ≤ fftW1.max_dependence_sets) := by
  have h : Nat.clog 2 (Int.toNat 1) = 0 := Nat.clog_of_right_le_one (by norm_num) 2
  simp [fftW1, TaskGraph.max_dependence_sets, h]

/-- C6 (amended): for every configuration with `timesteps ≥ 1`,
`max_width ≥ 1`, a positive period whenever the pattern is
spread/random_nearest/random_spread, and — the amendment — `max_width ≥ 2`
whenever the pattern is fft, `max_dependence_sets() ≥ 1` and every timestep
`t ∈ [0, timesteps)` has `0 ≤ dependence_set_at_timestep(t) <
max_dependence_sets()`.  (For fft with `max_width = 1` the count is
`ceil(log2 1) = 0` and the modulus is undefined.) -/
theorem dset_within_max_dependence_sets (g : TaskGraph)
    (hts : 1 ≤ g.timesteps) (hW : 1 ≤ g.max_width)
    (hper : (g.dependence = .SPREAD ∨ g.dependence = .RANDOM_NEAREST ∨
        g.dependence = .RANDOM_SPREAD) → 1 ≤ g.period)
    (hfft : g.dependence = .FFT → 2 ≤ g.max_width) :
    1 ≤ g.max_dependence_sets ∧
      ∀ t : Int, 0 ≤ t → t < g.timesteps →
        0 ≤ g.dependence_set_at_timestep t ∧
          g.dependence_set_at_timestep t < g.max_dependence_sets := by
  obtain ⟨ts, W, dep, R, per, ob, oc, hI⟩ := g
  cases dep <;>
    simp only [TaskGraph.max_dependence_sets,
      TaskGraph.dependence_set_at_timestep] at *
  case FFT =>
    have h2 : 2 ≤ W := hfft trivial
    have hpos : 0 < Nat.clog 2 W.toNat := Nat.clog_pos (by norm_num) (by omega)
    have hm : 1 ≤ (Nat.clog 2 W.toNat : Int) := by exact_mod_cast hpos
    exact ⟨hm, fun t ht0 ht1 => tmod_bounds (by omega) hm⟩
  case SPREAD =>
    have hp : 1 ≤ per := hper (Or.inl trivial)
    exact ⟨hp, fun t ht0 ht1 => tmod_bounds ht0 hp⟩
  case RANDOM_NEAREST =>
    have hp : 1 ≤ per := hper (Or.inr (Or.inl trivial))
    exact ⟨hp, fun t ht0 ht1 => tmod_bounds ht0 hp⟩
  case RANDOM_SPREAD =>
    have hp : 1 ≤ per := hper (Or.inr (Or.inr trivial))
    exact ⟨hp, fun t ht0 ht1 => tmod_bounds ht0 hp⟩
  all_goals exact ⟨le_refl 1, fun t ht0 ht1 => by omega⟩

/-- Witness for `dset_within_max_dependence_sets` at the spread graph
`spreadG`. -/
theorem dset_within_max_dependence_sets_witness :
    1 ≤ spreadG.max_dependence_sets ∧
      ∀ t : Int, 0 ≤ t → t < spreadG.timesteps →
        0 ≤ spreadG.dependence_set_at_timestep t ∧
          spreadG.dependence_set_at_timestep t < spreadG.max_dependence_sets :=
  dset_within_max_dependence_sets spreadG (by decide) (by decide)
    (by decide) (by decide)

/-! ## Claim C7 (which patterns require a period) -/

/-- C7: the claim is right and the code is wrong.  `needs_period` omits
`RANDOM_SPREAD`, so the period validation of `App::check` rejects a
random_spread graph with the non-zero period the pattern needs (branch
`!needs_period && period != 0`) and accepts one with period 0 — even though
the code's own `max_dependence_sets()` returns `period` for random_spread
and `dependence_set_at_timestep` then computes `timestep % 0`. -/
theorem random_spread_period_check :
    needs_period .RANDOM_SPREAD = false ∧
      periodCheckOk rsG5 = false ∧
      periodCheckOk rsG0 = true ∧
      rsG0.max_dependence_sets = 0 := by
  decide

/-! ## Claim C9 (output-size tables across `-and`) -/

/-- C9: the claim is right and the code is wrong.  In a two-graph command
line the graph pushed at the `-and` flag never has its `output_bytes_size`
table allocated (the planner runs only for the final graph): the first
component below is `none`.  The final graph's table is populated, and with
`output_bytes_per_task = 16` (or `output_case = 0`) every populated cell
equals `output_bytes_per_task`, as the last conjunct shows for the
4-timestep, width-4 stencil graph. -/
theorem and_graph_table_unallocated :
    ((appOutputTables [stencilG2] stencilG).map Prod.snd).head? = some none ∧
      (allocate_bytes? stencilG).isSome = true ∧
      allocate_bytes? stencilG =
        some (List.replicate 4 (List.replicate 4 (some 16))) := by
  decide

/-! ## Claim C10 (dependency counts bound the intervals written) -/

/-- C10: the claim is right and the code is wrong in exactly the edge case
the claim names.  For random_nearest with `radix = 0` and
`fraction_connected = 1.0` (every hash draw from `[0,1)` is below the
fraction, so `hashInclude` is constantly true), `dependencies` emits one
interval for point 2 — the sweep range `[max(0, p - 0/2), min(p + (0-1)/2,
max_width-1)]` degenerates to `{p}` because `(0-1)/2 = 0` in C++ truncating
division, and inclusion needs only the hash test — while `num_dependencies`
returns `radix = 0`, so the caller's buffer of 0 intervals is overrun. -/
theorem random_nearest_radix0_overrun :
    (rn0G.dependencies 0 2).length = 1 ∧ rn0G.num_dependencies 0 2 = 0 := by
  decide

/-- `coveredBy` distributes over list append. -/
theorem coveredBy_append (l1 l2 : List (Int × Int)) (q : Int) :
    coveredBy (l1 ++ l2) q = (coveredBy l1 q || coveredBy l2 q) := by
  simp [coveredBy]

/-- `coveredBy` on a cons cell. -/
theorem coveredBy_cons (pr : Int × Int) (l : List (Int × Int)) (q : Int) :
    coveredBy (pr :: l) q = true ↔
      ((pr.1 ≤ q ∧ q ≤ pr.2) ∨ coveredBy l q = true) := by
  simp [coveredBy]

/-- Coverage of the intervals emitted by `rnSweep`: a point `q` is covered
iff either it lies in the already-open run `[s, i)`, or it is one of the
remaining sweep indices `[i, i + fuel)` and is included. -/
theorem rnSweep_coveredBy (inc : Int → Bool) (q : Int) :
    ∀ (fuel : Nat) (i : Int) (rs : Option Int), (∀ s, rs = some s → s ≤ i) →
      (coveredBy (rnSweep inc rs i fuel) q = true ↔
        ((∃ s, rs = some s ∧ s ≤ q ∧ q < i) ∨
          (i ≤ q ∧ q < i + fuel ∧ inc q = true))) := by
  intro fuel
  induction fuel with
  | zero =>
    intro i rs hrs
    cases rs with
    | none =>
      simp only [rnSweep, coveredBy, List.any_nil, Nat.cast_zero, add_zero]
      constructor
      · intro h
        cases h
      · rintro (⟨s, hs, _⟩ | ⟨h1, h2, _⟩)
        · cases hs
        · omega
    | some s =>
      simp only [rnSweep, coveredBy, List.any_cons, List.any_nil, Bool.or_false,
        decide_eq_true_eq, Nat.cast_zero, add_zero]
      constructor
      · intro h
        exact Or.inl ⟨s, rfl, h.1, by omega⟩
      · rintro (⟨s', hs', h1, h2⟩ | ⟨h1, h2, _⟩)
        · rw [Option.some.injEq] at hs'
          subst hs'
          exact ⟨h1, by omega⟩
        · omega
  | succ fuel ih =>
    intro i rs hrs
    by_cases hinc : inc i
    · have hstep : rnSweep inc rs i (fuel + 1) =
          rnSweep inc (some (rs.getD i)) (i + 1) fuel := by
        cases rs <;> simp [rnSweep, hinc]
      rw [hstep, ih (i + 1) (some (rs.getD i)) (by
        intro s hs
        rw [Option.some.injEq] at hs
        cases rs with
        | none => simp at hs; omega
        | some s0 =>
          simp at hs
          have := hrs s0 rfl
          omega)]
      cases rs with
      | none =>
        simp only [Option.getD_none]
        constructor
        · rintro (⟨s, hs, h1, h2⟩ | ⟨h1, h2, h3⟩)
          · rw [Option.some.injEq] at hs
            have hq : q = i := by omega
            subst hq
            exact Or.inr ⟨le_refl q, by push_cast; omega, hinc⟩
          · exact Or.inr ⟨by omega, by push_cast at h2 ⊢; omega, h3⟩
        · rintro (⟨s, hs, h1, h2⟩ | ⟨h1, h2, h3⟩)
          · cases hs
          · by_cases hq : q = i
            · subst hq
              exact Or.inl ⟨q, rfl, le_refl q, by omega⟩
            · exact Or.inr ⟨by omega, by push_cast at h2 ⊢; omega, h3⟩
      | some s0 =>
        have hs0 : s0 ≤ i := hrs s0 rfl
        simp only [Option.getD_some]
        constructor
        · rintro (⟨s, hs, h1, h2⟩ | ⟨h1, h2, h3⟩)
          · rw [Option.some.injEq] at hs
            subst hs
            by_cases hq : q = i
            · subst hq
              exact Or.inr ⟨by omega, by push_cast; omega, hinc⟩
            · exact Or.inl ⟨s0, rfl, h1, by omega⟩
          · exact Or.inr ⟨by omega, by push_cast at h2 ⊢; omega, h3⟩
        · rintro (⟨s, hs, h1, h2⟩ | ⟨h1, h2, h3⟩)
          · rw [Option.some.injEq] at hs
            subst hs
            exact Or.inl ⟨s0, rfl, h1, by omega⟩
          · by_cases hq : q = i
            · subst hq
              exact Or.inl ⟨s0, rfl, by omega, by omega⟩
            · exact Or.inr ⟨by omega, by push_cast at h2 ⊢; omega, h3⟩
    · have hneq : inc q = true → q ≠ i := by
        intro h3 hq
        rw [hq] at h3
        exact hinc h3
      cases rs with
      | none =>
        have hstep : rnSweep inc none i (fuel + 1) =
            rnSweep inc none (i + 1) fuel := by
          simp [rnSweep, hinc]
        rw [hstep, ih (i + 1) none (by intro s hs; cases hs)]
        constructor
        · rintro (⟨s, hs, _⟩ | ⟨h1, h2, h3⟩)
          · cases hs
          · exact Or.inr ⟨by omega, by push_cast at h2 ⊢; omega, h3⟩
        · rintro (⟨s, hs, _⟩ | ⟨h1, h2, h3⟩)
          · cases hs
          · have := hneq h3
            exact Or.inr ⟨by omega, by push_cast at h2 ⊢; omega, h3⟩
      | some s0 =>
        have hs0 : s0 ≤ i := hrs s0 rfl
        have hstep : rnSweep inc (some s0) i (fuel + 1) =
            (s0, i - 1) :: rnSweep inc none (i + 1) fuel := by
          simp [rnSweep, hinc]
        rw [hstep, coveredBy_cons, ih (i + 1) none (by intro s hs; cases hs)]
        constructor
        · rintro (⟨h1, h2⟩ | ⟨s, hs, _⟩ | ⟨h1, h2, h3⟩)
          · exact Or.inl ⟨s0, rfl, h1, by omega⟩
          · cases hs
          · exact Or.inr ⟨by omega, by push_cast at h2 ⊢; omega, h3⟩
        · rintro (⟨s, hs, h1, h2⟩ | ⟨h1, h2, h3⟩)
          · rw [Option.some.injEq] at hs
            subst hs
            exact Or.inl ⟨h1, by omega⟩
          · have := hneq h3
            exact Or.inr (Or.inr ⟨by omega, by push_cast at h2 ⊢; omega, h3⟩)

/-- Coverage of a full `rnSweep` over `[first, last_i]` starting with no open
run: exactly the included points of the range. -/
theorem coveredBy_rnSweep_range (inc : Int → Bool) (first last_i q : Int) :
    coveredBy (rnSweep inc none first (last_i + 1 - first).toNat) q = true ↔
      (first ≤ q ∧ q ≤ last_i ∧ inc q = true) := by
  rw [rnSweep_coveredBy inc q _ first none (by intro s hs; cases hs)]
  constructor
  · rintro (⟨s, hs, _⟩ | ⟨h1, h2, h3⟩)
    · cases hs
    · exact ⟨h1, by omega, h3⟩
  · rintro ⟨h1, h2, h3⟩
    exact Or.inr ⟨h1, by omega, h3⟩

/-- C1: dependency/reverse-dependency symmetry.  For every graph whose
pattern implements `dependencies` (all but random_spread, whose case is the
unreachable `assert(false)` default), every dependence set `dset ≥ 0` and
all points `p, q ∈ [0, max_width)`: `q` is covered by some interval of
`dependencies(dset, p)` iff `p` is covered by some interval of
`reverse_dependencies(dset, q)`.  For random_nearest both directions
consult the hash tuple with the same argument order — forward candidate `i`
of point `p` uses `(graph, R, dset, i, p)` and reverse candidate `p` of
point `i` uses the swapped-slot tuple `(graph, R, dset, i, p)` as well — so
the inclusion decisions agree. -/
theorem dependencies_reverse_symm (g : TaskGraph) (dset p q : Int)
    (hne : g.dependence ≠ .RANDOM_SPREAD) (hdset : 0 ≤ dset)
    (hp0 : 0 ≤ p) (hpW : p < g.max_width)
    (hq0 : 0 ≤ q) (hqW : q < g.max_width) :
    (coveredBy (g.dependencies dset p) q = true ↔
      coveredBy (g.reverse_dependencies dset q) p = true) := by
  obtain ⟨ts, W, dep, R, per, ob, oc, hI⟩ := g
  dsimp only at hne hpW hqW ⊢
  have hW : 0 < W := by omega
  cases dep
  case TRIVIAL =>
    simp [TaskGraph.dependencies, TaskGraph.reverse_dependencies, coveredBy]
  case NO_COMM =>
    simp only [TaskGraph.dependencies, TaskGraph.reverse_dependencies]
    simp [coveredBy]
    omega
  case STENCIL_1D =>
    simp only [TaskGraph.dependencies, TaskGraph.reverse_dependencies]
    simp [coveredBy]
    omega
  case STENCIL_1D_PERIODIC =>
    simp only [TaskGraph.dependencies, TaskGraph.reverse_dependencies]
    split_ifs <;> simp [coveredBy] <;> omega
  case DOM =>
    simp only [TaskGraph.dependencies, TaskGraph.reverse_dependencies]
    simp [coveredBy]
    omega
  case TREE =>
    have h2 : p.tdiv 2 = p / 2 := Int.tdiv_eq_ediv hp0 (by norm_num)
    simp only [TaskGraph.dependencies, TaskGraph.reverse_dependencies]
    split_ifs <;> simp [coveredBy, h2] <;> omega
  case FFT =>
    have hk1 : 0 < (2 : Int) ^ dset.toNat := by positivity
    simp only [TaskGraph.dependencies, TaskGraph.reverse_dependencies]
    split_ifs <;> simp [coveredBy] <;> omega
  case ALL_TO_ALL =>
    simp only [TaskGraph.dependencies, TaskGraph.reverse_dependencies]
    simp [coveredBy]
    omega
  case NEAREST =>
    simp only [TaskGraph.dependencies, TaskGraph.reverse_dependencies]
    split_ifs with hR
    · simp [coveredBy]
      omega
    · simp [coveredBy]
  case RANDOM_NEAREST =>
    simp only [TaskGraph.dependencies, TaskGraph.reverse_dependencies]
    rw [coveredBy_rnSweep_range, coveredBy_rnSweep_range]
    simp only [Bool.or_eq_true, Bool.and_eq_true, beq_iff_eq, decide_eq_true_eq]
    constructor <;> rintro ⟨h1, h2, h3⟩
    · exact ⟨by omega, by omega, h3.imp id (fun hx => ⟨hx.1, hx.2.symm⟩)⟩
    · exact ⟨by omega, by omega, h3.imp id (fun hx => ⟨hx.1, hx.2.symm⟩)⟩
  case RANDOM_SPREAD => exact absurd rfl hne
  case SPREAD =>
    simp only [TaskGraph.dependencies, TaskGraph.reverse_dependencies, coveredBy,
      List.any_eq_true, List.mem_map, List.mem_range, decide_eq_true_eq]
    constructor
    · rintro ⟨x, ⟨i, hi, rfl⟩, h1, h2⟩
      dsimp only at h1 h2
      have hd0 : 0 ≤ ((i : Int) * W).tdiv R :=
        Int.tdiv_nonneg (mul_nonneg (Int.natCast_nonneg i) (le_of_lt hW))
          (by omega)
      have hite : 0 ≤ (if (i : Int) > 0 then dset else 0) := by
        split <;> omega
      have hmod : (p + ((i : Int) * W).tdiv R +
          (if (i : Int) > 0 then dset else 0)).tmod W =
          (p + ((i : Int) * W).tdiv R +
            (if (i : Int) > 0 then dset else 0)) % W :=
        Int.tmod_eq_emod (by omega) (by omega)
      have hq : (p + (((i : Int) * W).tdiv R +
          (if (i : Int) > 0 then dset else 0))) % W = q := by
        rw [← add_assoc]
        omega
      have hp' := (emod_shift_symm hp0 hpW hq0 hqW).mp hq
      refine ⟨_, ⟨i, hi, rfl⟩, ?_⟩
      dsimp only
      have hfix := tmod_fixup_eq_emod
        (q - ((i : Int) * W).tdiv R - (if (i : Int) > 0 then dset else 0)) W hW
      rw [hfix, sub_sub, hp']
      exact ⟨le_refl p, le_refl p⟩
    · rintro ⟨x, ⟨i, hi, rfl⟩, h1, h2⟩
      dsimp only at h1 h2
      have hd0 : 0 ≤ ((i : Int) * W).tdiv R :=
        Int.tdiv_nonneg (mul_nonneg (Int.natCast_nonneg i) (le_of_lt hW))
          (by omega)
      have hite : 0 ≤ (if (i : Int) > 0 then dset else 0) := by
        split <;> omega
      have hfix := tmod_fixup_eq_emod
        (q - ((i : Int) * W).tdiv R - (if (i : Int) > 0 then dset else 0)) W hW
      rw [hfix] at h1 h2
      have hp' : (q - (((i : Int) * W).tdiv R +
          (if (i : Int) > 0 then dset else 0))) % W = p := by
        rw [← sub_sub]
        omega
      have hq := (emod_shift_symm hp0 hpW hq0 hqW).mpr hp'
      refine ⟨_, ⟨i, hi, rfl⟩, ?_⟩
      dsimp only
      have hmod : (p + ((i : Int) * W).tdiv R +
          (if (i : Int) > 0 then dset else 0)).tmod W =
          (p + ((i : Int) * W).tdiv R +
            (if (i : Int) > 0 then dset else 0)) % W :=
        Int.tmod_eq_emod (by omega) (by omega)
      rw [hmod, add_assoc, hq]
      exact ⟨le_refl q, le_refl q⟩



/-- Witness for `dependencies_reverse_symm` at the concrete random_nearest
graph `rnG`, dset 0, points 1 and 2. -/
theorem dependencies_reverse_symm_witness :
    coveredBy (rnG.dependencies 0 1) 2 = true ↔
      coveredBy (rnG.reverse_dependencies 0 2) 1 = true :=
  dependencies_reverse_symm rnG 0 1 2 (by decide) (by decide) (by decide)
    (by decide) (by decide) (by decide)

/-- C5 fails on the code: at the spec's scenario-5 spread graph (width 8,
radix 3), dset 0, point 0, the code computes singletons {0, 2, 5} — the C++
expression `i*max_width/radix` is `(i*W)/R` — while the claim's
`i·⌊W/R⌋` formula gives {0, 2, 4}. -/
theorem spread_floor_claim_false :
    ¬ (spreadG.dependencies 0 0 = spreadDepsClaim spreadG 0 0) := by
  decide

/-- C5 (amended): for a spread graph with radix R > 0, every dependence set
`dset ≥ 0` and every point `p ∈ [0, max_width)`, dependencies(dset, p) is
exactly the list of R singleton intervals
`(p + ⌊i·W/R⌋ + (i>0 ? dset : 0)) mod W` for `i = 0, …, R-1`, where the
floor applies to the whole product `i·W/R` (not to `W/R` alone). -/
theorem spread_dependencies_closed_form (g : TaskGraph) (dset point : Int)
    (hd : g.dependence = .SPREAD) (hR : 0 < g.radix) (hW : 0 < g.max_width)
    (hdset : 0 ≤ dset) (hp : 0 ≤ point) :
    g.dependencies dset point = spreadDepsAmended g dset point := by
  obtain ⟨ts, W, dep, R, per, ob, oc, hI⟩ := g
  dsimp only at hd hR hW ⊢
  subst hd
  simp only [TaskGraph.dependencies, spreadDepsAmended]
  apply List.map_congr_left
  intro i hi
  rw [List.mem_range] at hi
  have hmn : 0 ≤ (i : Int) * W := mul_nonneg (Int.natCast_nonneg i) (le_of_lt hW)
  have hd0 : ((i : Int) * W).tdiv R = ((i : Int) * W) / R :=
    Int.tdiv_eq_ediv hmn (by omega)
  have hdiv0 : 0 ≤ ((i : Int) * W) / R := Int.ediv_nonneg hmn (by omega)
  have hite : 0 ≤ (if (i : Int) > 0 then dset else 0) := by
    split <;> omega
  rw [hd0, Int.tmod_eq_emod (by omega) (by omega)]

/-- Witness for `spread_dependencies_closed_form` at `spreadG`, dset 1,
point 3. -/
theorem spread_dependencies_closed_form_witness :
    spreadG.dependencies 1 3 = spreadDepsAmended spreadG 1 3 :=
  spread_dependencies_closed_form spreadG 1 3 rfl (by decide) (by decide)
    (by decide) (by decide)

/-- C2: round-trip through execute_point.  If every input buffer is exactly
what `execute_point(t, d, …)` wrote for the corresponding required
dependency `d` — some positive number of 16-byte records all equal to
`(t, d)` — then the input validation of `execute_point(t+1, q, …)` passes:
no assert fires and the corruption-error branch is unreachable. -/
theorem executePoint_roundtrip_valid (g : TaskGraph) (t q : Int)
    (slots : Int → Nat) (hne : g.dependence ≠ .RANDOM_SPREAD)
    (ht0 : 0 ≤ t) (ht1 : t < g.timesteps - 1)
    (hq1 : g.offset_at_timestep (t + 1) ≤ q)
    (hq2 : q < g.offset_at_timestep (t + 1) + g.width_at_timestep (t + 1))
    (hslots : ∀ d, 1 ≤ slots d) :
    g.validateInputs (t + 1) q
      ((g.validationDeps (t + 1) q).map
        (fun d => executePointOutput t d (slots d))) = true := by
  unfold TaskGraph.validateInputs
  dsimp only
  rw [zip_map_self_all, Bool.and_eq_true]
  constructor
  · simp
  · rw [List.all_eq_true]
    intro d hd
    rw [Bool.and_eq_true]
    constructor
    · have hs := hslots d
      rcases Nat.exists_eq_succ_of_ne_zero (by omega : slots d ≠ 0) with ⟨n, hn⟩
      simp [executePointOutput, hn, List.replicate_succ]
    · rw [List.all_eq_true]
      intro r hr
      rw [executePointOutput, List.mem_replicate] at hr
      rcases hr with ⟨_, rfl⟩
      simp only [decide_eq_true_eq]
      exact ⟨by omega, by trivial⟩

/-- Witness for `executePoint_roundtrip_valid` at the stencil graph
`stencilG`, timestep 0 → 1, point 1, one record per buffer. -/
theorem executePoint_roundtrip_valid_witness :
    stencilG.validateInputs 1 1
      ((stencilG.validationDeps 1 1).map
        (fun d => executePointOutput 0 d 1)) = true :=
  executePoint_roundtrip_valid stencilG 0 1 (fun _ => 1) (by decide)
    (by decide) (by decide) (by decide) (by decide) (fun _ => le_refl 1)



/-- Every interval emitted by `rnSweep` is well-formed (`fst ≤ snd`), given
that any open run started at or before the previous index. -/
theorem rnSweep_wf (inc : Int → Bool) :
    ∀ (fuel : Nat) (i : Int) (rs : Option Int), (∀ s, rs = some s → s ≤ i - 1) →
      ∀ pr ∈ rnSweep inc rs i fuel, pr.1 ≤ pr.2 := by
  intro fuel
  induction fuel with
  | zero =>
    intro i rs hrs pr hpr
    cases rs with
    | none => cases hpr
    | some s =>
      rw [show rnSweep inc (some s) i 0 = [(s, i - 1)] from rfl,
        List.mem_singleton] at hpr
      subst hpr
      have := hrs s rfl
      dsimp only
      omega
  | succ fuel ih =>
    intro i rs hrs pr hpr
    by_cases hinc : inc i
    · have hstep : rnSweep inc rs i (fuel + 1) =
          rnSweep inc (some (rs.getD i)) (i + 1) fuel := by
        cases rs <;> simp [rnSweep, hinc]
      rw [hstep] at hpr
      refine ih (i + 1) (some (rs.getD i)) ?_ pr hpr
      intro s hs
      rw [Option.some.injEq] at hs
      cases rs with
      | none => simp at hs; omega
      | some s0 =>
        simp at hs
        have := hrs s0 rfl
        omega
    · cases rs with
      | none =>
        have hstep : rnSweep inc none i (fuel + 1) =
            rnSweep inc none (i + 1) fuel := by
          simp [rnSweep, hinc]
        rw [hstep] at hpr
        exact ih (i + 1) none (by intro s hs; cases hs) pr hpr
      | some s0 =>
        have hs0 := hrs s0 rfl
        have hstep : rnSweep inc (some s0) i (fuel + 1) =
            (s0, i - 1) :: rnSweep inc none (i + 1) fuel := by
          simp [rnSweep, hinc]
        rw [hstep] at hpr
        rcases List.mem_cons.mp hpr with h | h
        · subst h
          dsimp only
          omega
        · exact ih (i + 1) none (by intro s hs; cases hs) pr h

/-- Every interval of `dependencies(dset, p)` is well-formed (`fst ≤ snd`)
for points inside the width. -/
theorem dependencies_wf (g : TaskGraph) (dset p : Int)
    (hW : 1 ≤ g.max_width) (hR : 0 ≤ g.radix)
    (hp0 : 0 ≤ p) (hpW : p < g.max_width) :
    ∀ pr ∈ g.dependencies dset p, pr.1 ≤ pr.2 := by
  obtain ⟨ts, W, dep, R, per, ob, oc, hI⟩ := g
  dsimp only at *
  cases dep <;> simp only [TaskGraph.dependencies]
  case TRIVIAL => intro pr hpr; cases hpr
  case NO_COMM =>
    intro pr hpr
    rw [List.mem_singleton] at hpr
    subst hpr
    dsimp only
    omega
  case STENCIL_1D =>
    intro pr hpr
    rw [List.mem_singleton] at hpr
    subst hpr
    dsimp only
    omega
  case STENCIL_1D_PERIODIC =>
    rw [List.forall_mem_append, List.forall_mem_append]
    refine ⟨⟨?_, ?_⟩, ?_⟩
    · intro pr hpr
      rw [List.mem_singleton] at hpr
      subst hpr
      dsimp only
      omega
    · split_ifs with h
      · intro pr hpr
        rw [List.mem_singleton] at hpr
        subst hpr
        dsimp only
        omega
      · intro pr hpr
        cases hpr
    · split_ifs with h
      · intro pr hpr
        rw [List.mem_singleton] at hpr
        subst hpr
        dsimp only
        omega
      · intro pr hpr
        cases hpr
  case DOM =>
    intro pr hpr
    rw [List.mem_singleton] at hpr
    subst hpr
    dsimp only
    omega
  case TREE =>
    intro pr hpr
    rw [List.mem_singleton] at hpr
    subst hpr
    dsimp only
    omega
  case FFT =>
    rw [List.forall_mem_append, List.forall_mem_append]
    refine ⟨⟨?_, ?_⟩, ?_⟩
    · split_ifs with h
      · intro pr hpr
        rw [List.mem_singleton] at hpr
        subst hpr
        dsimp only
        omega
      · intro pr hpr
        cases hpr
    · intro pr hpr
      rw [List.mem_singleton] at hpr
      subst hpr
      dsimp only
      omega
    · split_ifs with h
      · intro pr hpr
        rw [List.mem_singleton] at hpr
        subst hpr
        dsimp only
        omega
      · intro pr hpr
        cases hpr
  case ALL_TO_ALL =>
    intro pr hpr
    rw [List.mem_singleton] at hpr
    subst hpr
    dsimp only
    omega
  case NEAREST =>
    split_ifs with h
    · intro pr hpr
      rw [List.mem_singleton] at hpr
      subst hpr
      have h1 : 0 ≤ R.tdiv 2 := Int.tdiv_nonneg (by omega) (by norm_num)
      have h2 : 0 ≤ (R - 1).tdiv 2 := Int.tdiv_nonneg (by omega) (by norm_num)
      dsimp only
      omega
    · intro pr hpr
      cases hpr
  case SPREAD =>
    intro pr hpr
    rw [List.mem_map] at hpr
    obtain ⟨i, _, rfl⟩ := hpr
    exact le_refl _
  case RANDOM_NEAREST =>
    exact rnSweep_wf _ _ _ none (by intro s hs; cases hs)
  case RANDOM_SPREAD => intro pr hpr; cases hpr

/-- Rows stay inside `[0, max_width]`: the invariant `App::check` asserts
(core.cc lines 1173-1175). -/
theorem offset_width_bounds (g : TaskGraph) (hW : 1 ≤ g.max_width) (t : Int)
    (ht : t < g.timesteps) :
    0 ≤ g.offset_at_timestep t ∧
      g.offset_at_timestep t + g.width_at_timestep t ≤ g.max_width := by
  obtain ⟨ts, W, dep, R, per, ob, oc, hI⟩ := g
  dsimp only at *
  unfold TaskGraph.offset_at_timestep TaskGraph.width_at_timestep
  dsimp only
  cases dep <;> split_ifs <;> first | omega | (dsimp only; omega)

/-- `width_at_timestep` is nonnegative at every timestep below
`timesteps` (negative timesteps yield width 0). -/
theorem width_at_timestep_nonneg (g : TaskGraph) (hW : 1 ≤ g.max_width)
    (t : Int) (ht : t < g.timesteps) : 0 ≤ g.width_at_timestep t := by
  obtain ⟨ts, W, dep, R, per, ob, oc, hI⟩ := g
  dsimp only at *
  unfold TaskGraph.width_at_timestep
  dsimp only
  cases dep <;> split_ifs <;>
    first
      | omega
      | (have hpow : 0 < (2 : Int) ^ (min t 62).toNat := by positivity
         omega)
      | (dsimp only
         have hpow : 0 < (2 : Int) ^ (min t 62).toNat := by positivity
         omega)

/-- The clamp of a well-formed interval has the length of its intersection
with `[lo, hi]` (0 when disjoint). -/
theorem clamp_len_eq_cover (a b lo hi : Int) (hab : a ≤ b)
    (hlohi : lo - 1 ≤ hi) :
    (clamp a b lo hi).2 - (clamp a b lo hi).1 + 1 =
      max 0 (min b hi - max a lo + 1) := by
  unfold clamp
  split_ifs <;> omega

/-- The per-graph `report_timing` accumulators compute claim C8's sums. -/
theorem graphReportCounts_eq (g : TaskGraph) (hW : 1 ≤ g.max_width)
    (hR : 0 ≤ g.radix) :
    graphReportCounts g = (graphNumTasksSpec g, graphNumDepsSpec g) := by
  unfold graphReportCounts graphNumTasksSpec graphNumDepsSpec
  rw [foldl_pair_sum, List.map_map, List.map_map]
  refine Prod.ext ?_ ?_
  · dsimp only
    rw [zero_add]
    apply congrArg List.sum
    apply List.map_congr_left
    intro tn htn
    rfl
  · dsimp only
    rw [zero_add]
    apply congrArg List.sum
    apply List.map_congr_left
    intro tn htn
    rw [List.mem_range] at htn
    dsimp only
    apply congrArg List.sum
    apply List.map_congr_left
    intro p hp
    rw [mem_intervalPoints] at hp
    have hb := offset_width_bounds g hW (tn : Int) (by omega)
    have hp0 : 0 ≤ p := by omega
    have hpW : p < g.max_width := by omega
    apply congrArg List.sum
    apply List.map_congr_left
    intro pr hpr
    have hwf := dependencies_wf g _ p hW hR hp0 hpW pr hpr
    have hlw := width_at_timestep_nonneg g hW ((tn : Int) - 1) (by omega)
    exact clamp_len_eq_cover pr.1 pr.2 _ _ hwf (by omega)

/-- C8: the totals of `report_timing`.  `total_tasks` is the sum of
`width_at_timestep(t)` over all graphs and timesteps, and `total_deps` is
the sum over all graphs, timesteps and row points of the number of points
covered by each dependency interval clamped to
`[last_offset, last_offset + last_width - 1]`. -/
theorem report_timing_totals (graphs : List TaskGraph)
    (h : ∀ g ∈ graphs, 1 ≤ g.max_width ∧ 0 ≤ g.radix ∧
        g.dependence ≠ .RANDOM_SPREAD) :
    appTotalTasks graphs = appTotalTasksSpec graphs ∧
      appTotalDeps graphs = appTotalDepsSpec graphs := by
  constructor
  · unfold appTotalTasks appTotalTasksSpec
    apply congrArg List.sum
    apply List.map_congr_left
    intro g hg
    rw [graphReportCounts_eq g (h g hg).1 (h g hg).2.1]
  · unfold appTotalDeps appTotalDepsSpec
    apply congrArg List.sum
    apply List.map_congr_left
    intro g hg
    rw [graphReportCounts_eq g (h g hg).1 (h g hg).2.1]

/-- Witness for `report_timing_totals` at a two-graph application. -/
theorem report_timing_totals_witness :
    appTotalTasks [stencilG, spreadG] = appTotalTasksSpec [stencilG, spreadG] ∧
      appTotalDeps [stencilG, spreadG] = appTotalDepsSpec [stencilG, spreadG] :=
  report_timing_totals [stencilG, spreadG] (by decide)

end TaskBench
